import Mathlib

/-
Verification development for the horst-lang bytecode virtual machine
(src/src/vm.rs and src/src/native_functions.rs).

The Rust sources are shallowly embedded as executable Lean definitions.
The repository modules value.rs, frame.rs, class.rs, instance.rs,
function.rs, instruction.rs and the gc module are referenced by the two
files under src/ but are themselves absent; wherever a definition depends
on them it is modelled from the specification (see the doc comments that
begin with `Modelled from the spec:`).

Machine floating point (f64) is embedded as the type `FP` below: a NaN
element, signed infinities, and exact rationals for the finite values.
Finite arithmetic is exact rather than rounded; none of the claims under
verification depends on rounding, only on the tag dispatch, on the
NaN/identity structure of equality, and on exact small integers (every
i32 widens exactly into f64).
-/

namespace Horst

/-- Modelled from the spec: IEEE-754 double values (value.rs is absent
from src). `nan` is the NaN class, `inf neg` the two infinities, and
`num q` a finite value carried exactly as a rational. -/
inductive FP where
  | nan
  | inf (neg : Bool)
  | num (q : Rat)
deriving DecidableEq

/-- Modelled from the spec: IEEE `==` on doubles — NaN compares unequal
to everything, including itself. -/
def fpEq : FP → FP → Bool
  | .num a, .num b => decide (a = b)
  | .inf a, .inf b => decide (a = b)
  | _, _ => false

/-- f64 addition; finite values are added exactly. -/
def fpAdd : FP → FP → FP
  | .nan, _ => .nan
  | _, .nan => .nan
  | .num a, .num b => .num (a + b)
  | .inf a, .inf b => if a = b then .inf a else .nan
  | .inf a, .num _ => .inf a
  | .num _, .inf b => .inf b

/-- f64 subtraction; finite values are subtracted exactly. -/
def fpSub : FP → FP → FP
  | .nan, _ => .nan
  | _, .nan => .nan
  | .num a, .num b => .num (a - b)
  | .inf a, .inf b => if a = b then .nan else .inf a
  | .inf a, .num _ => .inf a
  | .num _, .inf b => .inf (!b)

/-- f64 multiplication; finite values are multiplied exactly. -/
def fpMul : FP → FP → FP
  | .nan, _ => .nan
  | _, .nan => .nan
  | .num a, .num b => .num (a * b)
  | .inf a, .inf b => .inf (xor a b)
  | .inf a, .num q => if q = 0 then .nan else .inf (xor a (decide (q < 0)))
  | .num q, .inf b => if q = 0 then .nan else .inf (xor b (decide (q < 0)))

/-- f64 division; finite values are divided exactly (signed zero is not
modelled). -/
def fpDiv : FP → FP → FP
  | .nan, _ => .nan
  | _, .nan => .nan
  | .num a, .num b =>
      if b = 0 then (if a = 0 then .nan else .inf (decide (a < 0))) else .num (a / b)
  | .inf a, .num q => .inf (xor a (decide (q < 0)))
  | .num _, .inf _ => .num 0
  | .inf _, .inf _ => .nan

/-- f64 strict less-than; false whenever a NaN is involved. -/
def fpLt : FP → FP → Bool
  | .nan, _ => false
  | _, .nan => false
  | .num a, .num b => decide (a < b)
  | .inf a, .inf b => a && !b
  | .inf a, .num _ => a
  | .num _, .inf b => !b

/-- f64 strict greater-than, as in Rust the mirror of less-than. -/
def fpGt (a b : FP) : Bool := fpLt b a

/-- f64 negation. -/
def fpNeg : FP → FP
  | .nan => .nan
  | .inf a => .inf (!a)
  | .num q => .num (-q)

/-- Upvalue descriptor of a compiled function (vm.rs, struct
FunctionUpvalue). -/
structure FunctionUpvalue where
  index : Nat
  is_local : Bool
deriving DecidableEq

/-- The instruction set, read off the dispatch loop in VM::run
(instruction.rs is absent from src; the constructors and operand counts
are exactly those matched in vm.rs). -/
inductive Instruction where
  | Constant (index : Nat)
  | Nil
  | True
  | False
  | Pop
  | GetGlobal (index : Nat)
  | DefineGlobal (index : Nat)
  | SetGlobal (index : Nat)
  | GetLocal (index : Nat)
  | SetLocal (index : Nat)
  | GetUpvalue (index : Nat)
  | SetUpvalue (index : Nat)
  | GetProperty (index : Nat)
  | SetProperty (index : Nat)
  | GetSuper (index : Nat)
  | Equal
  | Greater
  | Less
  | Subtract
  | Multiply
  | Divide
  | Add
  | Not
  | Negate
  | Print
  | Jump (offset : Nat)
  | JumpIfFalse (offset : Nat)
  | Loop (offset : Nat)
  | Call (arg_count : Nat)
  | Invoke (index : Nat) (arg_count : Nat)
  | SuperInvoke (index : Nat) (arg_count : Nat)
  | Closure (index : Nat)
  | CloseUpvalue
  | Return
  | Class (index : Nat)
  | Inherit
  | Method (index : Nat)
deriving DecidableEq

mutual

/-- Runtime values (value.rs is absent from src; the variants are those
enumerated in the spec and used throughout vm.rs). Heap-backed values
carry their heap id; a closure carries its function together with the
heap ids of its upvalue cells. `classRef` and `instanceRef` stand for
the source variants Class and Instance, and `string` for String. -/
inductive Value where
  | nil
  | boolean (b : Bool)
  | number (x : FP)
  | string (s : String)
  | function (f : Fn)
  | closure (f : Fn) (upvalues : List Nat)
  | nativeFunction (id : Nat)
  | classRef (id : Nat)
  | instanceRef (id : Nat)
  | boundMethod (receiver : Nat) (function : Fn) (upvalues : List Nat)

/-- A compiled function (function.rs is absent from src): arity, upvalue
descriptors, and its chunk, inlined here as code plus constant pool.
The constant pool is `Consts` rather than `List Value` so that the
mutual recursion stays structural. The source name Function collides
with a core Lean namespace, hence `Fn`. -/
inductive Fn where
  | mk (arity : Nat) (upvalues : List FunctionUpvalue)
       (code : List Instruction) (constants : Consts)

/-- A constant pool: a list of values, spelled as its own inductive so
that `Value` can nest inside it structurally. -/
inductive Consts where
  | nil
  | cons (v : Value) (rest : Consts)

end

/-- Arity of a function. -/
def Fn.arity : Fn → Nat
  | .mk a _ _ _ => a

/-- Upvalue descriptors of a function. -/
def Fn.upvalues : Fn → List FunctionUpvalue
  | .mk _ u _ _ => u

/-- Bytecode of a function. -/
def Fn.code : Fn → List Instruction
  | .mk _ _ c _ => c

/-- Constant pool of a function. -/
def Fn.constants : Fn → Consts
  | .mk _ _ _ k => k

/-- Indexed read of a constant pool. -/
def Consts.get? : Consts → Nat → Option Value
  | .nil, _ => none
  | .cons v _, 0 => some v
  | .cons _ rest, n + 1 => rest.get? n

mutual

/-- Modelled from the spec: value equality (the PartialEq impl lives in
the absent value.rs). Values are equal iff the tags match and the
payloads compare equal; numbers compare with IEEE semantics (NaN is not
equal to itself), heap-backed values compare by identity of their heap
id, and functions compare structurally. -/
def valueEq : Value → Value → Bool
  | .nil, .nil => true
  | .boolean a, .boolean b => decide (a = b)
  | .number x, .number y => fpEq x y
  | .string a, .string b => decide (a = b)
  | .function f, .function g => fnEq f g
  | .closure f u, .closure g w => fnEq f g && decide (u = w)
  | .nativeFunction i, .nativeFunction j => decide (i = j)
  | .classRef i, .classRef j => decide (i = j)
  | .instanceRef i, .instanceRef j => decide (i = j)
  | .boundMethod r f u, .boundMethod t g w =>
      decide (r = t) && fnEq f g && decide (u = w)
  | _, _ => false

/-- Structural equality of functions, comparing the constant pools with
`constsEq` so that nested numbers keep IEEE semantics. -/
def fnEq : Fn → Fn → Bool
  | .mk a u c k, .mk a2 u2 c2 k2 =>
      decide (a = a2) && decide (u = u2) && decide (c = c2) && constsEq k k2

/-- Pointwise equality of constant pools. -/
def constsEq : Consts → Consts → Bool
  | .nil, .nil => true
  | .cons v r, .cons w s => valueEq v w && constsEq r s
  | _, _ => false

end

mutual

/-- Whether a value contains a NaN number anywhere, including inside the
constant pools of the functions it carries. -/
def containsNaN : Value → Bool
  | .number .nan => true
  | .number _ => false
  | .function f => fnContainsNaN f
  | .closure f _ => fnContainsNaN f
  | .boundMethod _ f _ => fnContainsNaN f
  | _ => false

/-- Whether a function carries a NaN in its constant pool. -/
def fnContainsNaN : Fn → Bool
  | .mk _ _ _ k => constsContainsNaN k

/-- Whether a constant pool contains a NaN anywhere. -/
def constsContainsNaN : Consts → Bool
  | .nil => false
  | .cons v rest => containsNaN v || constsContainsNaN rest

end

/-- An upvalue cell (vm.rs, enum UpvalueRegistry): `Open slot` aliases a
stack position, `Closed v` is self-contained storage. -/
inductive UpvalueRegistry where
  | Open (slot : Nat)
  | Closed (v : Value)

/-- Close a cell over a value (UpvalueRegistry::close). -/
def UpvalueRegistry.close (_ : UpvalueRegistry) (value : Value) : UpvalueRegistry :=
  .Closed value

/-- An instance (instance.rs is absent from src; per the spec it is a
class reference plus a string-keyed field map). The source field name
is `class`, a Lean keyword, hence `cls`. -/
structure Instance where
  cls : Nat
  fields : List (String × Value)

/-- A class (class.rs is absent from src; per the spec it is a name plus
a method table). Class::new yields an empty method table. -/
structure Class where
  name : String
  methods : List (String × Value)

/-- A heap-resident object. The source heap stores `Box<dyn
Collectable>` and downcasts on access; the sum type plus the typed
getters below model exactly that behaviour. -/
inductive HeapObj where
  | upvalue (u : UpvalueRegistry)
  | inst (i : Instance)
  | cls (c : Class)

/-- Association list lookup on Nat keys, modelling HashMap::get. -/
def lookupN {α : Type} : List (Nat × α) → Nat → Option α
  | [], _ => none
  | (k, v) :: rest, key => if k = key then some v else lookupN rest key

/-- Association list insert on Nat keys, modelling HashMap::insert
(replaces an existing binding). -/
def insertN {α : Type} : List (Nat × α) → Nat → α → List (Nat × α)
  | [], key, val => [(key, val)]
  | (k, v) :: rest, key, val =>
      if k = key then (key, val) :: rest else (k, v) :: insertN rest key val

/-- Association list lookup on String keys, modelling HashMap::get. -/
def lookupA : List (String × Value) → String → Option Value
  | [], _ => none
  | (k, v) :: rest, key => if k = key then some v else lookupA rest key

/-- Association list insert on String keys, modelling HashMap::insert. -/
def insertA : List (String × Value) → String → Value → List (String × Value)
  | [], key, val => [(key, val)]
  | (k, v) :: rest, key, val =>
      if k = key then (key, val) :: rest else (k, v) :: insertA rest key val

/-- The managed heap (vm.rs, struct Heap): id-indexed objects plus the
monotonically increasing next id. -/
structure Heap where
  objects : List (Nat × HeapObj)
  next_id : Nat

/-- Typed access to an upvalue cell (VM::get_collectable downcast to
UpvalueRegistry): absent id or mismatched type yields none. -/
def Heap.getUpvalue (h : Heap) (id : Nat) : Option UpvalueRegistry :=
  match lookupN h.objects id with
  | some (.upvalue u) => some u
  | _ => none

/-- Typed access to an instance (VM::get_instance / get_collectable). -/
def Heap.getInstance (h : Heap) (id : Nat) : Option Instance :=
  match lookupN h.objects id with
  | some (.inst i) => some i
  | _ => none

/-- Typed access to a class (VM::get_class). -/
def Heap.getClass (h : Heap) (id : Nat) : Option Class :=
  match lookupN h.objects id with
  | some (.cls c) => some c
  | _ => none

/-- Overwrite the object stored at an id (the mutation performed through
get_collectable_mut / get_class_mut / get_instance_mut). -/
def Heap.setObj (h : Heap) (id : Nat) (o : HeapObj) : Heap :=
  { h with objects := insertN h.objects id o }

/-- Allocate a fresh object (VM::new_collectable / new_class /
new_instance): store under next_id and bump the counter. -/
def Heap.alloc (h : Heap) (o : HeapObj) : Nat × Heap :=
  (h.next_id, ⟨insertN h.objects h.next_id o, h.next_id + 1⟩)

/-- A call frame (frame.rs is absent from src; per the spec and its uses
in vm.rs it is the function, instruction pointer, stack base and the
resolved upvalue cell references). -/
structure CallFrame where
  function : Fn
  ip : Nat
  base : Nat
  upvalues : List Nat

/-- Modelled from the spec: CallFrame::get_upvalue (frame.rs is absent)
returns the i-th upvalue cell reference of the frame. -/
def CallFrame.get_upvalue (f : CallFrame) (index : Nat) : Option Nat :=
  f.upvalues[index]?

/-- The whole interpreter state (vm.rs, struct VM), plus an output trace
for the Print instruction. The stack is a list whose index 0 is the
bottom; push appends at the end just as Vec::push does. -/
structure VMState where
  stack : List Value
  frames : List CallFrame
  globals : List (String × Value)
  open_upvalues : List Nat
  heap : Heap
  output : List String

/-- Runtime failures: every Rust panic and every unwrap on None becomes
an error carrying the panic message. -/
abbrev M (α : Type) := Except String α

/-- The message of an unwrap on a missing value. -/
def unwrapMsg : String := "called unwrap on a missing value"

/-- The message of an out-of-bounds index or an arithmetic underflow on
usize. -/
def indexOobMsg : String := "index out of bounds"

/-- The arity panic message of VM::call and of the class arm of
VM::call_value. -/
def arityMsg (arity n : Nat) : String :=
  "Expected " ++ toString arity ++ " arguments but got " ++ toString n ++ "."

/-- Turn an optional value into the run monad with a panic message. -/
def ofOption {α : Type} : Option α → String → M α
  | some a, _ => .ok a
  | none, msg => .error msg

/-- VM::peek — the value `distance` slots below the top, none if the
subtraction underflows. -/
def peekV (st : VMState) (distance : Nat) : Option Value :=
  if distance + 1 ≤ st.stack.length then st.stack[st.stack.length - 1 - distance]? else none

/-- VM::pop — pop the top of the stack, panicking when empty. -/
def popV (st : VMState) : M (Value × VMState) :=
  match st.stack.getLast? with
  | some v => .ok (v, { st with stack := st.stack.dropLast })
  | none => .error unwrapMsg

/-- VM::frame — the topmost frame, panicking when there is none. -/
def frameLast (st : VMState) : M CallFrame :=
  ofOption st.frames.getLast? unwrapMsg

/-- Apply a function to the topmost frame (VM::frame_mut). -/
def modifyLastFrame (st : VMState) (g : CallFrame → CallFrame) : VMState :=
  { st with frames := st.frames.dropLast ++ (st.frames.getLast?.map g).toList }

/-- VM::read_constant — read the current chunk constant, panicking when
the index is out of bounds. -/
def read_constant (st : VMState) (index : Nat) : M Value := do
  let fr ← frameLast st
  ofOption (fr.function.constants.get? index) indexOobMsg

/-- VM::read_string — the constant must be a string. -/
def read_string (st : VMState) (index : Nat) : M String := do
  let v ← read_constant st index
  match v with
  | .string s => .ok s
  | _ => .error "Value is not a string."

/-- VM::get_global. -/
def get_global (st : VMState) (index : Nat) : M VMState := do
  let name ← read_string st index
  match lookupA st.globals name with
  | some v => .ok { st with stack := st.stack ++ [v] }
  | none => .error ("Undefined variable " ++ name ++ ".")

/-- VM::define_global. -/
def define_global (st : VMState) (index : Nat) : M VMState := do
  let name ← read_string st index
  let (value, st1) ← popV st
  .ok { st1 with globals := insertA st1.globals name value }

/-- VM::set_global — peeks, does not pop. -/
def set_global (st : VMState) (index : Nat) : M VMState := do
  let name ← read_string st index
  if (lookupA st.globals name).isSome then
    let value ← ofOption (peekV st 0) unwrapMsg
    .ok { st with globals := insertA st.globals name value }
  else
    .error ("Undefined variable " ++ name ++ ".")

/-- VM::get_local — read stack slot base + index and push it. -/
def get_local (st : VMState) (index : Nat) : M VMState := do
  let fr ← frameLast st
  let v ← ofOption (st.stack[fr.base + index]?) indexOobMsg
  .ok { st with stack := st.stack ++ [v] }

/-- VM::set_local — write the peeked top into stack slot base + index. -/
def set_local (st : VMState) (index : Nat) : M VMState := do
  let fr ← frameLast st
  let v ← ofOption (peekV st 0) unwrapMsg
  if fr.base + index < st.stack.length then
    .ok { st with stack := st.stack.set (fr.base + index) v }
  else
    .error indexOobMsg

/-- VM::capture_upvalue — reuse the open cell aliasing this slot when
one exists in the open-upvalue list, otherwise allocate a fresh
Open cell and push its reference at the end of the list. -/
def capture_upvalue (st : VMState) (index : Nat) : Nat × VMState :=
  match st.open_upvalues.find? (fun r =>
      match st.heap.getUpvalue r with
      | some (.Open i) => i == index
      | _ => false) with
  | some r => (r, st)
  | none =>
      let (id, h) := st.heap.alloc (.upvalue (.Open index))
      (id, { st with heap := h, open_upvalues := st.open_upvalues ++ [id] })

/-- The capture loop of VM::make_closure: resolve each upvalue
descriptor, a local one through capture_upvalue at base + index, a
non-local one by inheriting the i-th cell of the current frame. -/
def captureAll (st : VMState) (fr : CallFrame) : List FunctionUpvalue → M (List Nat × VMState)
  | [] => .ok ([], st)
  | d :: rest => do
      let (r, st1) ←
        if d.is_local then
          .ok (capture_upvalue st (fr.base + d.index))
        else
          match fr.get_upvalue d.index with
          | some r => .ok (r, st)
          | none => .error indexOobMsg
      let (rs, st2) ← captureAll st1 fr rest
      .ok (r :: rs, st2)

/-- VM::make_closure — the constant must be a function; resolve its
upvalues and push the closure. -/
def make_closure (st : VMState) (index : Nat) : M VMState := do
  let c ← read_constant st index
  match c with
  | .function f => do
      let fr ← frameLast st
      let (ups, st1) ← captureAll st fr f.upvalues
      .ok { st1 with stack := st1.stack ++ [.closure f ups] }
  | _ => .error "Value is not a function."

/-- VM::get_upvalue — read through the i-th cell of the current frame:
an Open cell reads the aliased stack slot, a Closed cell reads its own
payload; either way the value is pushed. -/
def get_upvalue (st : VMState) (index : Nat) : M VMState := do
  let fr ← frameLast st
  let r ← ofOption (fr.get_upvalue index) indexOobMsg
  let u ← ofOption (st.heap.getUpvalue r) unwrapMsg
  match u with
  | .Open slot => do
      let v ← ofOption (st.stack[slot]?) indexOobMsg
      .ok { st with stack := st.stack ++ [v] }
  | .Closed v => .ok { st with stack := st.stack ++ [v] }

/-- VM::set_upvalue — write the peeked top through the i-th cell of the
current frame: an Open cell writes the aliased stack slot, a Closed
cell is overwritten in the heap. -/
def set_upvalue (st : VMState) (index : Nat) : M VMState := do
  let value ← ofOption (peekV st 0) unwrapMsg
  let fr ← frameLast st
  let r ← ofOption (fr.get_upvalue index) indexOobMsg
  let u ← ofOption (st.heap.getUpvalue r) unwrapMsg
  match u with
  | .Open slot =>
      if slot < st.stack.length then
        .ok { st with stack := st.stack.set slot value }
      else
        .error indexOobMsg
  | .Closed _ => .ok { st with heap := st.heap.setObj r (.upvalue (.Closed value)) }

/-- The loop body of VM::close_upvalues, with explicit fuel (each
iteration pops one entry, so the list length suffices): look at the
last entry of the open-upvalue list; stop when it is absent or its slot
is at most the limit, otherwise pop it, read the stack at its slot and
close the cell over that value. -/
def close_upvalues_fuel : Nat → VMState → Nat → M VMState
  | 0, st, _ => .ok st
  | fuel + 1, st, index =>
      match st.open_upvalues.getLast? with
      | none => .ok st
      | some r =>
          match st.heap.getUpvalue r with
          | none => .error unwrapMsg
          | some (.Closed _) => .error "Expected open upvalue."
          | some (.Open slot) =>
              if slot ≤ index then .ok st
              else
                match st.stack[slot]? with
                | none => .error indexOobMsg
                | some v =>
                    close_upvalues_fuel fuel
                      { st with open_upvalues := st.open_upvalues.dropLast,
                                heap := st.heap.setObj r (.upvalue (.Closed v)) }
                      index

/-- VM::close_upvalues. -/
def close_upvalues (st : VMState) (index : Nat) : M VMState :=
  close_upvalues_fuel st.open_upvalues.length st index

/-- VM::bind_method — look the name up in the method table of the class;
on a hit push a bound method pairing the receiver with the function and
upvalues of the method (which must be a function or closure), on a miss
panic with undefined property. -/
def bind_method (st : VMState) (classRef : Nat) (instRef : Nat) (name : String) : M VMState := do
  let cl ← ofOption (st.heap.getClass classRef) unwrapMsg
  match lookupA cl.methods name with
  | some m => do
      let (f, ups) ←
        (match m with
         | .function f => .ok (f, ([] : List Nat))
         | .closure f u => .ok (f, u)
         | _ => (.error "Expected function or closure." : M (Fn × List Nat)))
      .ok { st with stack := st.stack ++ [.boundMethod instRef f ups] }
  | none => .error ("Undefined property " ++ name ++ ".")

/-- VM::get_property — pop the receiver, which must be an instance; push
the field of that name when present, otherwise bind the class method. -/
def get_property (st : VMState) (index : Nat) : M VMState := do
  let name ← read_string st index
  let (v, st1) ← popV st
  match v with
  | .instanceRef iRef => do
      let inst ← ofOption (st1.heap.getInstance iRef) unwrapMsg
      match lookupA inst.fields name with
      | some value => .ok { st1 with stack := st1.stack ++ [value] }
      | none => bind_method st1 inst.cls iRef name
  | _ => .error "Only instances have properties."

/-- VM::set_property — pop the value and the instance, write the field,
push the value back. -/
def set_property (st : VMState) (index : Nat) : M VMState := do
  let name ← read_string st index
  let (value, st1) ← popV st
  let (inst, st2) ← popV st1
  match inst with
  | .instanceRef iRef => do
      let i ← ofOption (st2.heap.getInstance iRef) unwrapMsg
      .ok { st2 with
              heap := st2.heap.setObj iRef (.inst { i with fields := insertA i.fields name value }),
              stack := st2.stack ++ [value] }
  | _ => .error "Only instances have fields."

/-- VM::get_super — pop `this` and then the superclass; bind the named
method of the superclass to `this`. -/
def get_super (st : VMState) (index : Nat) : M VMState := do
  let (this_val, st1) ← popV st
  let (super_val, st2) ← popV st1
  match super_val, this_val with
  | .classRef sc, .instanceRef t => do
      let name ← read_string st2 index
      bind_method st2 sc t name
  | _, _ => .error "Superclass must be a class."

/-- VM::define_method — pop the method value, peek the class beneath,
insert into its method table under the named constant. -/
def define_method (st : VMState) (index : Nat) : M VMState := do
  let (method, st1) ← popV st
  let cls ← ofOption (peekV st1 0) unwrapMsg
  match cls with
  | .classRef c => do
      let name ← read_string st1 index
      let cl ← ofOption (st1.heap.getClass c) unwrapMsg
      .ok { st1 with heap := st1.heap.setObj c (.cls { cl with methods := insertA cl.methods name method }) }
  | _ => .error "Expected class."

/-- Modelled from the spec: the native registry is host-provided and out
of the scope of the VM core (spec section 1); only the calling contract
matters here, so a native application is modelled as returning Nil. -/
def native_apply (_ : Nat) (_ : List Value) : Value := Value.nil

/-- VM::call — the arity must match the argument count, otherwise panic;
then push a frame whose base is the callee slot. -/
def call (st : VMState) (f : Fn) (ups : List Nat) (arg_count : Nat) : M VMState :=
  if arg_count ≠ f.arity then .error (arityMsg f.arity arg_count)
  else if arg_count + 1 ≤ st.stack.length then
    .ok { st with frames := st.frames ++ [⟨f, 0, st.stack.length - arg_count - 1, ups⟩] }
  else .error indexOobMsg

/-- VM::call_value — dispatch on the callee tag: functions and closures
check arity and push a frame; a class allocates an instance into the
callee slot and runs init when present, otherwise requires zero
arguments; a bound method writes its receiver into the callee slot; a
native collects the arguments, pops callee and arguments, and pushes
the host result. Anything else is a type error. -/
def call_value (st : VMState) (callee : Value) (arg_count : Nat) : M VMState :=
  match callee with
  | .closure f ups => call st f ups arg_count
  | .function f => call st f [] arg_count
  | .classRef c =>
      let (id, h) := st.heap.alloc (.inst ⟨c, []⟩)
      if arg_count + 1 ≤ st.stack.length then
        let st1 := { st with heap := h,
                             stack := st.stack.set (st.stack.length - arg_count - 1) (.instanceRef id) }
        (do
          let cl ← ofOption (st1.heap.getClass c) unwrapMsg
          match lookupA cl.methods "init" with
          | some init =>
              (match init with
               | .closure f ups => call st1 f ups arg_count
               | .function f => call st1 f [] arg_count
               | _ => .error "Expected function.")
          | none =>
              if arg_count ≠ 0 then .error (arityMsg 0 arg_count) else .ok st1)
      else .error indexOobMsg
  | .boundMethod receiver f ups =>
      if arg_count + 1 ≤ st.stack.length then
        call { st with stack := st.stack.set (st.stack.length - arg_count - 1) (.instanceRef receiver) }
          f ups arg_count
      else .error indexOobMsg
  | .nativeFunction id =>
      if arg_count ≤ st.stack.length then
        let args := st.stack.drop (st.stack.length - arg_count)
        let result := native_apply id args
        .ok { st with stack := st.stack.take (st.stack.length - (arg_count + 1)) ++ [result] }
      else .error indexOobMsg
  | _ => .error "Can only call functions and classes."

/-- VM::call_value_from_stack — the callee is peeked at distance
arg_count. -/
def call_value_from_stack (st : VMState) (arg_count : Nat) : M VMState := do
  let callee ← ofOption (peekV st arg_count) unwrapMsg
  call_value st callee arg_count

/-- VM::invoke_from_class — look the method up in the class and call it
with the receiver still in the callee slot. -/
def invoke_from_class (st : VMState) (classRef : Nat) (method : String) (arg_count : Nat) : M VMState := do
  let cl ← ofOption (st.heap.getClass classRef) unwrapMsg
  match lookupA cl.methods method with
  | some m => call_value st m arg_count
  | none => .error ("Undefined property " ++ method ++ ".")

/-- VM::invoke — the receiver is peeked at distance arg_count and must
be an instance; a field of that name wins and is written into the
callee slot then called as a value, otherwise dispatch to the class. -/
def invoke (st : VMState) (method : String) (arg_count : Nat) : M VMState := do
  let receiver ← ofOption (peekV st arg_count) unwrapMsg
  match receiver with
  | .instanceRef iRef => do
      let inst ← ofOption (st.heap.getInstance iRef) unwrapMsg
      match lookupA inst.fields method with
      | some m =>
          call_value_from_stack
            { st with stack := st.stack.set (st.stack.length - arg_count - 1) m } arg_count
      | none => invoke_from_class st inst.cls method arg_count
  | _ => .error "Only instances have methods."

/-- Modelled from the spec: truthiness (Value::is_falsey lives in the
absent value.rs) — Nil and false are falsey, everything else truthy. -/
def is_falsey : Value → Bool
  | .nil => true
  | .boolean false => true
  | _ => false

/-- Modelled from the spec: the printable form of a value (the Display
impl lives in the absent value.rs). No claim depends on the exact
rendering. -/
def display : Value → String
  | .nil => "nil"
  | .boolean b => if b then "true" else "false"
  | .number (.num q) => toString q
  | .number (.inf b) => if b then "-inf" else "inf"
  | .number .nan => "NaN"
  | .string s => s
  | .function _ => "<fn>"
  | .closure _ _ => "<closure>"
  | .nativeFunction _ => "<native fn>"
  | .classRef i => "<class " ++ toString i ++ ">"
  | .instanceRef i => "<instance " ++ toString i ++ ">"
  | .boundMethod _ _ _ => "<bound method>"

/-- The Add arm of VM::run: pop two operands; two numbers add, two
strings concatenate, anything else panics. -/
def run_add (st : VMState) : M VMState := do
  let (b, st1) ← popV st
  let (a, st2) ← popV st1
  match a, b with
  | .number x, .number y => .ok { st2 with stack := st2.stack ++ [.number (fpAdd x y)] }
  | .string s, .string t => .ok { st2 with stack := st2.stack ++ [.string (s ++ t)] }
  | _, _ => .error "Operands must be two numbers or two strings."

/-- The Equal arm of VM::run: pop two operands and push whether they are
equal. -/
def run_equal (st : VMState) : M VMState := do
  let (b, st1) ← popV st
  let (a, st2) ← popV st1
  .ok { st2 with stack := st2.stack ++ [.boolean (valueEq a b)] }

/-- The binary_op macro of VM::run: pop two operands, both must be
numbers. -/
def run_binary (st : VMState) (f : FP → FP → Value) : M VMState := do
  let (b, st1) ← popV st
  let (a, st2) ← popV st1
  match a, b with
  | .number x, .number y => .ok { st2 with stack := st2.stack ++ [f x y] }
  | _, _ => .error "Invalid operands for binary operation."

/-- Outcome of one dispatch step: continue, the run loop returned, or a
panic. -/
inductive StepOut where
  | next (st : VMState)
  | done (st : VMState)
  | fail (msg : String)

/-- Lift the run monad into a step outcome. -/
def liftStep : M VMState → StepOut
  | .ok st => .next st
  | .error m => .fail m

/-- One iteration of the dispatch loop VM::run: fetch the instruction of
the topmost frame, advance the instruction pointer, then execute the
matching arm exactly as in the source. -/
def step (st : VMState) : StepOut :=
  match st.frames.getLast? with
  | none => .fail unwrapMsg
  | some fr =>
      match fr.function.code[fr.ip]? with
      | none => .fail indexOobMsg
      | some instr =>
          let st := modifyLastFrame st (fun f => { f with ip := f.ip + 1 })
          match instr with
          | .Constant index =>
              liftStep (do
                let c ← read_constant st index
                .ok { st with stack := st.stack ++ [c] })
          | .Nil => .next { st with stack := st.stack ++ [.nil] }
          | .True => .next { st with stack := st.stack ++ [.boolean true] }
          | .False => .next { st with stack := st.stack ++ [.boolean false] }
          | .Pop => .next { st with stack := st.stack.dropLast }
          | .GetGlobal i => liftStep (get_global st i)
          | .DefineGlobal i => liftStep (define_global st i)
          | .SetGlobal i => liftStep (set_global st i)
          | .GetLocal i => liftStep (get_local st i)
          | .SetLocal i => liftStep (set_local st i)
          | .GetUpvalue i => liftStep (get_upvalue st i)
          | .SetUpvalue i => liftStep (set_upvalue st i)
          | .GetProperty i => liftStep (get_property st i)
          | .SetProperty i => liftStep (set_property st i)
          | .GetSuper i => liftStep (get_super st i)
          | .Equal => liftStep (run_equal st)
          | .Greater => liftStep (run_binary st (fun a b => .boolean (fpGt a b)))
          | .Less => liftStep (run_binary st (fun a b => .boolean (fpLt a b)))
          | .Subtract => liftStep (run_binary st (fun a b => .number (fpSub a b)))
          | .Multiply => liftStep (run_binary st (fun a b => .number (fpMul a b)))
          | .Divide => liftStep (run_binary st (fun a b => .number (fpDiv a b)))
          | .Add => liftStep (run_add st)
          | .Not =>
              liftStep (do
                let (v, st1) ← popV st
                .ok { st1 with stack := st1.stack ++ [.boolean (is_falsey v)] })
          | .Negate =>
              liftStep (do
                let (v, st1) ← popV st
                match v with
                | .number x => .ok { st1 with stack := st1.stack ++ [.number (fpNeg x)] }
                | _ => .error "Operand must be a number.")
          | .Print =>
              liftStep (do
                let (v, st1) ← popV st
                .ok { st1 with output := st1.output ++ [display v] })
          | .Jump o => .next (modifyLastFrame st (fun f => { f with ip := f.ip + o }))
          | .JumpIfFalse o =>
              liftStep (do
                let v ← ofOption (peekV st 0) unwrapMsg
                .ok (if is_falsey v then modifyLastFrame st (fun f => { f with ip := f.ip + o }) else st))
          | .Loop o =>
              liftStep (do
                let fr2 ← frameLast st
                if o ≤ fr2.ip then
                  .ok (modifyLastFrame st (fun f => { f with ip := f.ip - o }))
                else .error indexOobMsg)
          | .Call n => liftStep (call_value_from_stack st n)
          | .Invoke k n =>
              liftStep (do
                let name ← read_string st k
                invoke st name n)
          | .SuperInvoke k n =>
              liftStep (do
                let name ← read_string st k
                let (sc, st1) ← popV st
                match sc with
                | .classRef c => invoke_from_class st1 c name n
                | _ => .error "Only classes have superclass.")
          | .Closure k => liftStep (make_closure st k)
          | .CloseUpvalue =>
              liftStep (do
                if st.stack.length = 0 then .error unwrapMsg
                else do
                  let st1 ← close_upvalues st (st.stack.length - 1)
                  .ok { st1 with stack := st1.stack.dropLast })
          | .Return =>
              (match st.stack.getLast? with
               | none => .fail unwrapMsg
               | some result =>
                   let st1 := { st with stack := st.stack.dropLast }
                   match close_upvalues st1 fr.base with
                   | .error m => .fail m
                   | .ok st2 =>
                       let st3 := { st2 with frames := st2.frames.dropLast }
                       if st3.frames.isEmpty then .done { st3 with stack := st3.stack.dropLast }
                       else .next { st3 with stack := st3.stack.take fr.base ++ [result] })
          | .Class k =>
              liftStep (do
                let name ← read_string st k
                let (id, h) := st.heap.alloc (.cls ⟨name, []⟩)
                .ok { st with heap := h, stack := st.stack ++ [.classRef id] })
          | .Inherit =>
              liftStep (do
                let (sub, st1) ← popV st
                let sup ← ofOption (peekV st1 0) unwrapMsg
                match sub, sup with
                | .classRef subRef, .classRef supRef => do
                    let supC ← ofOption (st1.heap.getClass supRef) unwrapMsg
                    let subC ← ofOption (st1.heap.getClass subRef) unwrapMsg
                    let merged := supC.methods.foldl (fun acc kv => insertA acc kv.1 kv.2) subC.methods
                    let h := st1.heap.setObj subRef (.cls { subC with methods := merged })
                    .ok { st1 with heap := h }
                | _, _ => .error "Superclass must be a class.")
          | .Method k => liftStep (define_method st k)

/-- Iterate the dispatch loop for a bounded number of steps, propagating
termination and panics. -/
def runN : Nat → VMState → StepOut
  | 0, st => .next st
  | n + 1, st =>
      match step st with
      | .next st1 => runN n st1
      | out => out

/-- VM::interpret up to entering the run loop: wrap the top-level
function in a closure with no upvalues, push it, and call it with zero
arguments. -/
def interpret_init (f : Fn) : M VMState :=
  call_value ⟨[.closure f []], [], [], [], ⟨[], 0⟩, []⟩ (.closure f []) 0

/-- The numeric value of a list of ASCII digit characters. -/
def digitsToNat (l : List Char) : Nat :=
  l.foldl (fun acc c => acc * 10 + (c.toNat - 48)) 0

/-- Whether every character of the list is an ASCII decimal digit. -/
def allDigits (l : List Char) : Bool :=
  l.all Char.isDigit

/-- Strip one optional leading sign, returning whether it was a minus
together with the remaining characters. -/
def stripSign : List Char → Bool × List Char
  | '+' :: rest => (false, rest)
  | '-' :: rest => (true, rest)
  | cs => (false, cs)

/-- The parser used by the `int` built-in, i32::from_str of the Rust
standard library at radix 10: one optional sign, then a nonempty run of
ASCII digits, nothing else; a value outside the 32-bit signed range is
a parse failure. -/
def parse_i32 (s : String) : Option Int :=
  let (neg, digits) := stripSign s.toList
  if digits = [] then none
  else if allDigits digits then
    let v : Int := if neg then -(digitsToNat digits : Int) else (digitsToNat digits : Int)
    if -(2 ^ 31) ≤ v ∧ v ≤ 2 ^ 31 - 1 then some v else none
  else none

/-- An integer textual form as the specification words it: an optional
sign followed by a nonempty run of decimal digits, together with the
integer it denotes. This is the spec-side notion, with no range
restriction; it exists to compare the claim wording with parse_i32. -/
def integer_textual_form (s : String) : Option Int :=
  let (neg, digits) := stripSign s.toList
  if digits ≠ [] ∧ allDigits digits = true then
    some (if neg then -(digitsToNat digits : Int) else (digitsToNat digits : Int))
  else none

/-- Split a character list at the first exponent marker e or E. -/
def splitExp : List Char → List Char × Option (List Char)
  | [] => ([], none)
  | c :: rest =>
      if c = 'e' ∨ c = 'E' then ([], some rest)
      else
        let (m, e) := splitExp rest
        (c :: m, e)

/-- Split a character list at the first decimal point. -/
def splitDot : List Char → List Char × Option (List Char)
  | [] => ([], none)
  | c :: rest =>
      if c = '.' then ([], some rest)
      else
        let (m, e) := splitDot rest
        (c :: m, e)

/-- The exact rational denoted by integer digits, fractional digits and
a decimal exponent. -/
def decimalValue (intPart fracPart : List Char) (exp : Int) : Rat :=
  ((digitsToNat intPart : Rat) + (digitsToNat fracPart : Rat) / (10 : Rat) ^ fracPart.length)
    * (10 : Rat) ^ exp

/-- The finite-number grammar of f64::from_str: a significand made of
digits with at most one dot and at least one digit, then an optional
exponent e or E with an optional sign and a nonempty digit run. The
value is kept exact rather than rounded to binary64; no claim depends
on rounding. -/
def parseDecimal (neg : Bool) (cs : List Char) : Option FP :=
  let (mant, expPart) := splitExp cs
  let (intPart, fracOpt) := splitDot mant
  let fracPart := fracOpt.getD []
  if allDigits intPart ∧ allDigits fracPart ∧ intPart ++ fracPart ≠ [] then
    match expPart with
    | none =>
        let q := decimalValue intPart fracPart 0
        some (.num (if neg then -q else q))
    | some e =>
        let (eneg, edigits) := stripSign e
        if edigits ≠ [] ∧ allDigits edigits = true then
          let ev : Int := if eneg then -(digitsToNat edigits : Int) else (digitsToNat edigits : Int)
          let q := decimalValue intPart fracPart ev
          some (.num (if neg then -q else q))
        else none
  else none

/-- The parser used by the `number` built-in, f64::from_str of the Rust
standard library: an optional sign, then case-insensitively inf,
infinity or nan, or else a finite decimal form. -/
def parse_f64 (s : String) : Option FP :=
  let (neg, rest) := stripSign s.toList
  let low := rest.map Char.toLower
  if low = ['i', 'n', 'f'] ∨ low = ['i', 'n', 'f', 'i', 'n', 'i', 't', 'y'] then
    some (.inf neg)
  else if low = ['n', 'a', 'n'] then some .nan
  else parseDecimal neg rest

/-- The `number` native (native_functions.rs): pop the last argument,
which must be a string (vm.error, which aborts, is modelled as the
error case); parse it as an f64 — Number on success, Nil on failure. -/
def number (args : List Value) : M Value :=
  match args.getLast? with
  | some (.string s) =>
      (match parse_f64 s with
       | some x => .ok (.number x)
       | none => .ok .nil)
  | _ => .error "First argument must be a string"

/-- The `int` native (native_functions.rs): pop the last argument, which
must be a string; parse it as an i32 — on success the value widened to
f64 (exact, since every i32 is exactly representable), Nil on failure. -/
def int (args : List Value) : M Value :=
  match args.getLast? with
  | some (.string s) =>
      (match parse_i32 s with
       | some z => .ok (.number (.num (z : Rat)))
       | none => .ok .nil)
  | _ => .error "First argument must be a string"

/-- Modelled from the spec: the derived Debug rendering of a value
(value.rs with its derive is absent from src). The exact text is not
load-bearing for any claim; what matters is that map_set prints the
rendering of its full argument vector. -/
def debugValue : Value → String
  | .nil => "Nil"
  | .boolean b => if b then "Boolean(true)" else "Boolean(false)"
  | .number (.num q) => "Number(" ++ toString q ++ ")"
  | .number (.inf b) => if b then "Number(-inf)" else "Number(inf)"
  | .number .nan => "Number(NaN)"
  | .string s => "String(\"" ++ s ++ "\")"
  | .function _ => "Function(..)"
  | .closure _ _ => "Closure(..)"
  | .nativeFunction i => "NativeFunction(" ++ toString i ++ ")"
  | .classRef i => "Class(" ++ toString i ++ ")"
  | .instanceRef i => "Instance(" ++ toString i ++ ")"
  | .boundMethod r _ _ => "BoundMethod(" ++ toString r ++ ", ..)"

/-- The Debug rendering of an argument vector, as the println at the top
of map_set emits it. -/
def debugArgs (args : List Value) : String :=
  "[" ++ String.intercalate ", " (args.map debugValue) ++ "]"

/-- The `set` method of the Map built-in (native_functions.rs, map_set).
It first prints the Debug form of the whole argument vector, then
removes the receiver, which must be an instance and is dereferenced in
the heap (the gc module is absent from src; per the spec heap contract
a missing id is a failed access), removes the key, which must be a
string, pops the value, inserts the pair into the field map of the
instance and returns Nil. The printed line is the first component of
the result, produced before any of the checks or the insertion. -/
def map_set (args : List Value) (gc : List (Nat × Instance)) :
    String × M (List (Nat × Instance) × Value) :=
  (debugArgs args,
    match args with
    | .instanceRef mapRef :: rest =>
        (match lookupN gc mapRef with
         | some mapInst =>
             (match rest with
              | .string key :: rest2 =>
                  (match rest2.getLast? with
                   | some value =>
                       .ok (insertN gc mapRef { mapInst with fields := insertA mapInst.fields key value }, .nil)
                   | none => .error unwrapMsg)
              | _ :: _ => .error "Second argument must be a string"
              | [] => .error indexOobMsg)
         | none => .error unwrapMsg)
    | _ :: _ => .error "First argument must be a map"
    | [] => .error indexOobMsg)

/-- The two-instruction path the spec compares Invoke against: run
GetProperty on the receiver, push the argument values, then run Call.
The receiver state is the state whose stack top is the receiver; the
arguments are appended after GetProperty has replaced the receiver by
the looked-up property, exactly as compiled code would evaluate them
next. -/
def get_property_then_call (st : VMState) (index : Nat) (args : List Value) (arg_count : Nat) :
    M VMState := do
  let st1 ← get_property st index
  call_value_from_stack { st1 with stack := st1.stack ++ args } arg_count

/-- A state whose open-upvalue list holds one Open cell at slot 0: the
input on which close_upvalues with limit 0 diverges from the claim. -/
def c1_state : VMState :=
  ⟨[.number (.num 5)], [], [], [0], ⟨[(0, .upvalue (.Open 0))], 1⟩, []⟩

/-- The inner function of the CloseUpvalue trace: no code of it ever
runs; it exists to carry one upvalue descriptor capturing local slot 1
of its enclosing frame. -/
def c2_fn_inner : Fn := .mk 0 [⟨1, true⟩] [.Nil, .Return] .nil

/-- The top-level function of the CloseUpvalue trace: push a number (the
local), make the closure capturing it, pop the closure, then
CloseUpvalue — the sequence a compiler emits when a captured local goes
out of scope. -/
def c2_fn_top : Fn :=
  .mk 0 [] [.Constant 0, .Closure 1, .Pop, .CloseUpvalue, .Nil, .Return]
    (.cons (.number (.num 7)) (.cons (.function c2_fn_inner) .nil))

/-- The state interpret reaches on c2_fn_top just before the run loop. -/
def c2_start : VMState :=
  ⟨[.closure c2_fn_top []], [⟨c2_fn_top, 0, 0, []⟩], [], [], ⟨[], 0⟩, []⟩

/-- The state after the four instructions Constant, Closure, Pop,
CloseUpvalue of c2_fn_top: the stack has shrunk to one slot but the
open-upvalue list still holds the cell Open 1. -/
def c2_after : VMState :=
  ⟨[.closure c2_fn_top []], [⟨c2_fn_top, 4, 0, []⟩], [], [0],
    ⟨[(0, .upvalue (.Open 1))], 1⟩, []⟩

/-- A state whose heap holds a class with one native method and an
instance of it, and whose frame constants hold the method name: the
input on which Invoke and GetProperty-then-Call diverge. -/
def c3_state : VMState :=
  ⟨[.instanceRef 1],
    [⟨.mk 0 [] [] (.cons (.string "m") .nil), 0, 0, []⟩],
    [], [],
    ⟨[(0, .cls ⟨"Map", [("m", .nativeFunction 0)]⟩), (1, .inst ⟨0, []⟩)], 2⟩,
    []⟩

/-- Whether a value is a bare function or a closure — the shapes
bind_method accepts as methods. -/
def isFnOrClosure : Value → Bool
  | .function _ => true
  | .closure _ _ => true
  | _ => false

mutual

/-- Value equality is reflexive on every value that does not contain a
NaN number. -/
theorem valueEq_refl (v : Value) (h : containsNaN v = false) : valueEq v v = true := by
  cases v with
  | nil => rfl
  | boolean b => simp [valueEq]
  | number x =>
      cases x with
      | nan => simp [containsNaN] at h
      | inf s => simp [valueEq, fpEq]
      | num q => simp [valueEq, fpEq]
  | string s => simp [valueEq]
  | function f =>
      have := fnEq_refl f (by simpa [containsNaN] using h)
      simp [valueEq, this]
  | closure f u =>
      have := fnEq_refl f (by simpa [containsNaN] using h)
      simp [valueEq, this]
  | nativeFunction i => simp [valueEq]
  | classRef i => simp [valueEq]
  | instanceRef i => simp [valueEq]
  | boundMethod r f u =>
      have := fnEq_refl f (by simpa [containsNaN] using h)
      simp [valueEq, this]

/-- Structural function equality is reflexive away from NaN. -/
theorem fnEq_refl (f : Fn) (h : fnContainsNaN f = false) : fnEq f f = true := by
  cases f with
  | mk a u c k =>
      have := constsEq_refl k (by simpa [fnContainsNaN] using h)
      simp [fnEq, this]

/-- Constant pool equality is reflexive away from NaN. -/
theorem constsEq_refl (k : Consts) (h : constsContainsNaN k = false) : constsEq k k = true := by
  cases k with
  | nil => rfl
  | cons v rest =>
      have h1 : containsNaN v = false := by
        have := h; simp [constsContainsNaN] at this; exact this.1
      have h2 : constsContainsNaN rest = false := by
        have := h; simp [constsContainsNaN] at this; exact this.2
      simp [constsEq, valueEq_refl v h1, constsEq_refl rest h2]

end

/-- The last element of a list extended by one element. -/
theorem getLast?_append_one {α : Type} (l : List α) (a : α) :
    (l ++ [a]).getLast? = some a := by
  simp [List.getLast?_concat]

/-- Dropping the last element of a list extended by one element. -/
theorem dropLast_append_one {α : Type} (l : List α) (a : α) :
    (l ++ [a]).dropLast = l := by
  simp

/-- Indexing the element right after a prefix. -/
theorem getElem?_append_middle {α : Type} (pre : List α) (x : α) (suf : List α) :
    (pre ++ x :: suf)[pre.length]? = some x := by
  induction pre with
  | nil => simp
  | cons p rest ih => simpa using ih

/-- Overwriting the element right after a prefix. -/
theorem set_append_middle {α : Type} (pre : List α) (x y : α) (suf : List α) :
    (pre ++ x :: suf).set pre.length y = pre ++ y :: suf := by
  induction pre with
  | nil => simp
  | cons p rest ih => simp [ih]

/-- Peeking at distance n reaches the element right before the last n
elements. -/
theorem peekV_middle (st : VMState) (pre : List Value) (x : Value) (args : List Value)
    (hstack : st.stack = pre ++ x :: args) :
    peekV st args.length = some x := by
  unfold peekV
  rw [hstack]
  have h1 : args.length + 1 ≤ (pre ++ x :: args).length := by simp
  rw [if_pos h1]
  have h2 : (pre ++ x :: args).length - 1 - args.length = pre.length := by simp
  rw [h2]
  exact getElem?_append_middle pre x args

/-- Lookup after inserting at the same key. -/
theorem lookupN_insertN_self {α : Type} (l : List (Nat × α)) (k : Nat) (o : α) :
    lookupN (insertN l k o) k = some o := by
  induction l with
  | nil => simp [insertN, lookupN]
  | cons p rest ih =>
      by_cases h : p.1 = k
      · simp [insertN, lookupN, h]
      · simp [insertN, lookupN, h, ih]

/-- Lookup after inserting at a different key. -/
theorem lookupN_insertN_ne {α : Type} (l : List (Nat × α)) (k j : Nat) (o : α)
    (h : k ≠ j) : lookupN (insertN l j o) k = lookupN l k := by
  have hj : j ≠ k := Ne.symm h
  induction l with
  | nil => simp [insertN, lookupN, hj]
  | cons p rest ih =>
      by_cases hp : p.1 = j
      · simp [insertN, lookupN, hp, hj]
      · by_cases hk : p.1 = k
        · simp [insertN, lookupN, hp, hk, h]
        · simp [insertN, lookupN, hp, hk, ih]

/-- A find over an extended list when the original part found nothing
under the old predicate, the new predicate agrees away from the new
element and accepts it. -/
theorem find?_extended (l : List Nat) (p q : Nat → Bool) (id : Nat)
    (hpq : ∀ r, r ≠ id → q r = p r) (hid : q id = true)
    (hnone : l.find? p = none) :
    (l ++ [id]).find? q = some id := by
  induction l with
  | nil => simp [List.find?, hid]
  | cons c rest ih =>
      cases hpc : p c with
      | true => simp [List.find?, hpc] at hnone
      | false =>
          have hrest : rest.find? p = none := by
            simpa [List.find?, hpc] using hnone
          by_cases hcid : c = id
          · subst hcid
            simp [List.find?, hid]
          · have hqc : q c = p c := hpq c hcid
            simp [List.find?, hqc, hpc, ih hrest]

/-- The close_upvalues loop touches only the heap and the open-upvalue
list: stack, frames, globals and output pass through unchanged. -/
theorem close_upvalues_fuel_preserves (fuel : Nat) :
    ∀ (st : VMState) (index : Nat) (stc : VMState),
      close_upvalues_fuel fuel st index = .ok stc →
      stc.stack = st.stack ∧ stc.frames = st.frames ∧
      stc.globals = st.globals ∧ stc.output = st.output := by
  induction fuel with
  | zero =>
      intro st index stc h
      simp [close_upvalues_fuel] at h
      subst h; exact ⟨rfl, rfl, rfl, rfl⟩
  | succ n ih =>
      intro st index stc h
      unfold close_upvalues_fuel at h
      split at h
      · cases h; exact ⟨rfl, rfl, rfl, rfl⟩
      · split at h
        · cases h
        · cases h
        · split at h
          · cases h; exact ⟨rfl, rfl, rfl, rfl⟩
          · split at h
            · cases h
            · have h4 := ih _ index stc h
              exact ⟨h4.1, h4.2.1, h4.2.2.1, h4.2.2.2⟩

/-- close_upvalues preserves stack, frames, globals and output. -/
theorem close_upvalues_preserves (st : VMState) (index : Nat) (stc : VMState)
    (h : close_upvalues st index = .ok stc) :
    stc.stack = st.stack ∧ stc.frames = st.frames ∧
    stc.globals = st.globals ∧ stc.output = st.output :=
  close_upvalues_fuel_preserves _ st index stc h

/-- Reduction of a bind on a success, for rewriting do-blocks. -/
theorem bind_ok {α β : Type} (a : α) (f : α → Except String β) :
    (Except.ok a >>= f : Except String β) = f a := rfl

/-- Reduction of a bind on an error, for rewriting do-blocks. -/
theorem bind_error {α β : Type} (m : String) (f : α → Except String β) :
    (Except.error m >>= f : Except String β) = Except.error m := rfl

/-- C1: the claim says close_upvalues(limit) closes every Open cell with
slot greater than or equal to the limit, reads the stack there, makes
the cell Closed and removes it from the open list. The code breaks out
of its loop when slot is less than OR EQUAL to the limit, so a cell
whose slot equals the limit is neither closed nor removed: on c1_state,
whose single cell is Open 0 and whose limit is 0, close_upvalues
returns the state unchanged, the cell still Open and still listed. -/
theorem c1_close_upvalues_skips_slot_at_limit :
    close_upvalues c1_state 0 = Except.ok c1_state ∧
    c1_state.open_upvalues = [0] ∧
    c1_state.heap.getUpvalue 0 = some (.Open 0) :=
  ⟨rfl, rfl, rfl⟩

/-- C2: the claim says every Open cell in the open-upvalue list has a
slot below the stack length at every point of execution. Running the
program c2_fn_top — push a local, capture it in a closure, pop the
closure, CloseUpvalue — reaches after four steps a state whose stack
has length 1 while the open-upvalue list still holds the cell Open 1:
the CloseUpvalue arm popped the top slot but, because close_upvalues
stops at slot equal to its limit, never closed the cell aliasing it. -/
theorem c2_open_upvalue_dangles_after_close_upvalue :
    interpret_init c2_fn_top = Except.ok c2_start ∧
    runN 4 c2_start = StepOut.next c2_after ∧
    c2_after.open_upvalues = [0] ∧
    c2_after.heap.getUpvalue 0 = some (.Open 1) ∧
    c2_after.stack.length = 1 :=
  ⟨rfl, rfl, rfl, rfl, rfl⟩

/-- C7: the Add arm pops two operands and pushes the numeric sum when
both are numbers, the concatenation when both are strings, and panics
with the type error on every other combination of tags — and only on
those. -/
theorem c7_add_semantics (st : VMState) (pre : List Value) (a b : Value)
    (hstack : st.stack = pre ++ [a, b]) :
    (∀ x y, a = .number x → b = .number y →
       run_add st = .ok { st with stack := pre ++ [.number (fpAdd x y)] }) ∧
    (∀ s t, a = .string s → b = .string t →
       run_add st = .ok { st with stack := pre ++ [.string (s ++ t)] }) ∧
    ((match a, b with
      | .number _, .number _ => False
      | .string _, .string _ => False
      | _, _ => True) →
     run_add st = .error "Operands must be two numbers or two strings.") := by
  have hsplit : st.stack = (pre ++ [a]) ++ [b] := by rw [hstack]; simp
  have h1 : popV st = .ok (b, { st with stack := pre ++ [a] }) := by
    simp [popV, hsplit, getLast?_append_one, dropLast_append_one]
  have h2 : popV { st with stack := pre ++ [a] } = .ok (a, { st with stack := pre }) := by
    simp [popV, getLast?_append_one, dropLast_append_one]
  refine ⟨?_, ?_, ?_⟩
  · intro x y hx hy
    subst hx; subst hy
    simp only [run_add, h1, h2, bind_ok]
  · intro s t hs ht
    subst hs; subst ht
    simp only [run_add, h1, h2, bind_ok]
  · intro hother
    cases a <;> cases b <;>
      first
        | exact hother.elim
        | simp only [run_add, h1, h2, bind_ok]

/-- C7 witness: adding the numbers 1 and 2 on a concrete state pushes
the number 3. -/
theorem c7_add_semantics_witness :
    run_add ⟨[.number (.num 1), .number (.num 2)], [], [], [], ⟨[], 0⟩, []⟩ =
      .ok ⟨[.number (.num 3)], [], [], [], ⟨[], 0⟩, []⟩ := by
  have h := (c7_add_semantics ⟨[.number (.num 1), .number (.num 2)], [], [], [], ⟨[], 0⟩, []⟩
    [] (.number (.num 1)) (.number (.num 2)) rfl).1 (.num 1) (.num 2) rfl rfl
  have hadd : fpAdd (.num 1) (.num 2) = FP.num 3 := by norm_num [fpAdd]
  simpa [hadd] using h

/-- C9: the Equal arm is reflexive — pushing any value free of NaN twice
and executing Equal pushes true — and equality compares heap-backed
values by identity of their heap id and numbers by IEEE equality. -/
theorem c9_equal_reflexive (st : VMState) (pre : List Value) (v : Value)
    (hstack : st.stack = pre ++ [v, v]) (hnan : containsNaN v = false) :
    run_equal st = .ok { st with stack := pre ++ [.boolean true] } ∧
    (∀ i j : Nat, valueEq (.instanceRef i) (.instanceRef j) = decide (i = j)) ∧
    (∀ i j : Nat, valueEq (.classRef i) (.classRef j) = decide (i = j)) ∧
    (∀ x y : FP, valueEq (.number x) (.number y) = fpEq x y) := by
  have hsplit : st.stack = (pre ++ [v]) ++ [v] := by rw [hstack]; simp
  have h1 : popV st = .ok (v, { st with stack := pre ++ [v] }) := by
    simp [popV, hsplit, getLast?_append_one, dropLast_append_one]
  have h2 : popV { st with stack := pre ++ [v] } = .ok (v, { st with stack := pre }) := by
    simp [popV, getLast?_append_one, dropLast_append_one]
  refine ⟨?_, fun i j => rfl, fun i j => rfl, fun x y => rfl⟩
  simp only [run_equal, h1, h2, bind_ok, valueEq_refl v hnan]

/-- C9 witness: Nil pushed twice compares equal on a concrete state. -/
theorem c9_equal_reflexive_witness :
    run_equal ⟨[.nil, .nil], [], [], [], ⟨[], 0⟩, []⟩ =
      .ok ⟨[.boolean true], [], [], [], ⟨[], 0⟩, []⟩ := by
  simpa using (c9_equal_reflexive ⟨[.nil, .nil], [], [], [], ⟨[], 0⟩, []⟩ [] .nil rfl rfl).1

/-- C6: calling a function or closure fails with the arity panic exactly
when the argument count differs from the declared arity, and otherwise
pushes a frame based at the callee slot; calling a class with no init
method fails with the arity panic exactly when the argument count is
nonzero, and otherwise proceeds with the fresh instance written into
the callee slot. -/
theorem c6_call_arity (st : VMState) (f : Fn) (ups : List Nat) (c : Nat) (cl : Class) (n : Nat)
    (hlen : n + 1 ≤ st.stack.length)
    (hcl : st.heap.getClass c = some cl)
    (hfresh : c ≠ st.heap.next_id)
    (hinit : lookupA cl.methods "init" = none) :
    (call_value st (.closure f ups) n = .error (arityMsg f.arity n) ↔ n ≠ f.arity) ∧
    (call_value st (.function f) n = .error (arityMsg f.arity n) ↔ n ≠ f.arity) ∧
    (n = f.arity → call_value st (.closure f ups) n =
       .ok { st with frames := st.frames ++ [⟨f, 0, st.stack.length - n - 1, ups⟩] }) ∧
    (call_value st (.classRef c) n = .error (arityMsg 0 n) ↔ n ≠ 0) ∧
    (n = 0 → call_value st (.classRef c) n =
       .ok { st with
               heap := ⟨insertN st.heap.objects st.heap.next_id (.inst ⟨c, []⟩),
                        st.heap.next_id + 1⟩,
               stack := st.stack.set (st.stack.length - 1) (.instanceRef st.heap.next_id) }) := by
  have hobj : lookupN st.heap.objects c = some (.cls cl) := by
    unfold Heap.getClass at hcl
    split at hcl
    · cases hcl; assumption
    · cases hcl
  have hcl1 : Heap.getClass ⟨insertN st.heap.objects st.heap.next_id (.inst ⟨c, []⟩),
      st.heap.next_id + 1⟩ c = some cl := by
    unfold Heap.getClass
    simp only [lookupN_insertN_ne _ _ _ _ hfresh, hobj]
  have hclassRun : call_value st (.classRef c) n =
      (if n ≠ 0 then .error (arityMsg 0 n)
       else .ok { st with
                    heap := ⟨insertN st.heap.objects st.heap.next_id (.inst ⟨c, []⟩),
                             st.heap.next_id + 1⟩,
                    stack := st.stack.set (st.stack.length - n - 1)
                               (.instanceRef st.heap.next_id) }) := by
    simp only [call_value, Heap.alloc, hlen, if_true, hcl1, ofOption, bind_ok, hinit]
  refine ⟨?_, ?_, ?_, ?_, ?_⟩
  · by_cases harity : n = f.arity
    · subst harity; simp [call_value, call, hlen]
    · simp [call_value, call, harity]
  · by_cases harity : n = f.arity
    · subst harity; simp [call_value, call, hlen]
    · simp [call_value, call, harity]
  · intro harity
    subst harity
    simp [call_value, call, hlen]
  · rw [hclassRun]
    by_cases hz : n = 0
    · simp [hz]
    · simp [hz]
  · intro hz
    subst hz
    rw [hclassRun]
    simp

/-- C6 witness: on a concrete one-slot stack, calling a zero-arity
closure pushes a frame and calling a class with no init and zero
arguments replaces the callee slot by the fresh instance. -/
theorem c6_call_arity_witness :
    call_value ⟨[.classRef 0], [], [], [], ⟨[(0, .cls ⟨"K", []⟩)], 1⟩, []⟩
        (.closure (.mk 0 [] [] .nil) []) 0 =
      .ok ⟨[.classRef 0], [⟨.mk 0 [] [] .nil, 0, 0, []⟩], [], [],
        ⟨[(0, .cls ⟨"K", []⟩)], 1⟩, []⟩ ∧
    call_value ⟨[.classRef 0], [], [], [], ⟨[(0, .cls ⟨"K", []⟩)], 1⟩, []⟩ (.classRef 0) 0 =
      .ok ⟨[.instanceRef 1], [], [], [],
        ⟨[(0, .cls ⟨"K", []⟩), (1, .inst ⟨0, []⟩)], 2⟩, []⟩ := by
  have h := c6_call_arity ⟨[.classRef 0], [], [], [], ⟨[(0, .cls ⟨"K", []⟩)], 1⟩, []⟩
    (.mk 0 [] [] .nil) [] 0 ⟨"K", []⟩ 0 (by decide) rfl (by decide) rfl
  exact ⟨by simpa using h.2.2.1 rfl, by simpa using h.2.2.2.2 rfl⟩

/-- C5: executing Return pops the result, runs close_upvalues at the
frame base, discards the frame, truncates the stack to the base and
pushes the result back, so that a non-final Return leaves exactly
base + 1 slots with the result on top — the frame slots, callee
included, are gone; a Return from the last frame instead pops one more
residual slot (the sentinel) and terminates the loop. -/
theorem c5_return_effect (st : VMState) (fr : CallFrame) (result : Value) (stc : VMState)
    (hfr : st.frames.getLast? = some fr)
    (hcode : fr.function.code[fr.ip]? = some .Return)
    (hres : st.stack.getLast? = some result)
    (hclose : close_upvalues
        { st with frames := st.frames.dropLast ++ [{ fr with ip := fr.ip + 1 }],
                  stack := st.stack.dropLast } fr.base = .ok stc) :
    (2 ≤ st.frames.length →
       step st = .next { stc with frames := st.frames.dropLast,
                                  stack := st.stack.dropLast.take fr.base ++ [result] }) ∧
    (st.frames.length = 1 →
       step st = .done { stc with frames := [], stack := st.stack.dropLast.dropLast }) ∧
    (fr.base + 1 ≤ st.stack.length →
       (st.stack.dropLast.take fr.base ++ [result]).length = fr.base + 1 ∧
       (st.stack.dropLast.take fr.base ++ [result]).getLast? = some result) := by
  have hpres := close_upvalues_preserves _ _ _ hclose
  have hstep : step st =
      (let st3 := { stc with frames := stc.frames.dropLast }
       if st3.frames.isEmpty then .done { st3 with stack := st3.stack.dropLast }
       else .next { st3 with stack := st3.stack.take fr.base ++ [result] }) := by
    simp only [step, hfr, modifyLastFrame, Option.map_some, Option.map_some', Option.toList_some,
      hcode, hres, hclose]
  have hframes : stc.frames.dropLast = st.frames.dropLast := by
    rw [hpres.2.1, dropLast_append_one]
  refine ⟨?_, ?_, ?_⟩
  · intro h2
    rw [hstep]
    have hne : st.frames.dropLast.isEmpty = false := by
      cases hdl : st.frames.dropLast with
      | nil =>
          exfalso
          have := congrArg List.length hdl
          simp [List.length_dropLast] at this
          omega
      | cons a as => simp
    simp only [hframes, hne, Bool.false_eq_true, if_false]
    rw [hpres.1]
  · intro h1
    rw [hstep]
    have hnil : st.frames.dropLast = [] := by
      cases hdl : st.frames.dropLast with
      | nil => rfl
      | cons a as =>
          exfalso
          have := congrArg List.length hdl
          simp [List.length_dropLast, h1] at this
    simp only [hframes, hnil, List.isEmpty_nil, if_true]
    rw [hpres.1]
  · intro hbase
    constructor
    · have : (st.stack.dropLast.take fr.base).length = fr.base := by
        simp [List.length_take, List.length_dropLast]
        omega
      simp [this]
    · exact getLast?_append_one _ _

/-- C5 witness: a concrete Return in a two-frame state truncates to the
base and exposes the result. -/
theorem c5_return_effect_witness :
    step ⟨[.nil, .nil, .number (.num 9)],
          [⟨.mk 0 [] [] .nil, 0, 0, []⟩, ⟨.mk 0 [] [.Return] .nil, 0, 1, []⟩],
          [], [], ⟨[], 0⟩, []⟩ =
      .next ⟨[.nil, .number (.num 9)], [⟨.mk 0 [] [] .nil, 0, 0, []⟩], [], [], ⟨[], 0⟩, []⟩ := by
  have h := c5_return_effect
    ⟨[.nil, .nil, .number (.num 9)],
      [⟨.mk 0 [] [] .nil, 0, 0, []⟩, ⟨.mk 0 [] [.Return] .nil, 0, 1, []⟩],
      [], [], ⟨[], 0⟩, []⟩
    ⟨.mk 0 [] [.Return] .nil, 0, 1, []⟩ (.number (.num 9))
    ⟨[.nil, .nil],
      [⟨.mk 0 [] [] .nil, 0, 0, []⟩, ⟨.mk 0 [] [.Return] .nil, 1, 1, []⟩],
      [], [], ⟨[], 0⟩, []⟩
    rfl rfl rfl rfl
  simpa using h.1 (by decide)

/-- C10: every well-formed call of the Map set method returns the Debug
rendering of its full argument vector — receiver, key and value — as
its printed line, inserts the pair into the field map of the receiver
instance and returns Nil; the printed line is produced from the intact
argument vector for every call, well-formed or not. -/
theorem c10_map_set_prints_then_inserts (gc : List (Nat × Instance)) (i : Nat)
    (inst : Instance) (k : String) (v : Value)
    (hgc : lookupN gc i = some inst) :
    map_set [.instanceRef i, .string k, v] gc =
      (debugArgs [.instanceRef i, .string k, v],
       .ok (insertN gc i { inst with fields := insertA inst.fields k v }, .nil)) ∧
    (∀ args gc2, (map_set args gc2).1 = debugArgs args) := by
  refine ⟨?_, fun args gc2 => rfl⟩
  simp [map_set, hgc]

/-- C10 witness: a concrete set call on a one-instance heap prints the
arguments and inserts the pair. -/
theorem c10_map_set_witness :
    map_set [.instanceRef 0, .string "a", .nil] [(0, ⟨5, []⟩)] =
      (debugArgs [.instanceRef 0, .string "a", .nil],
       .ok ([(0, ⟨5, [("a", .nil)]⟩)], .nil)) := by
  simpa using (c10_map_set_prints_then_inserts [(0, ⟨5, []⟩)] 0 ⟨5, []⟩ "a" .nil rfl).1

/-- C8 counterexample: 2147483648 is an integer textual form, yet int
returns Nil on it rather than the f64 widening, because the source
parses through i32 and the value overflows the 32-bit signed range. -/
theorem c8_int_overflow_counterexample :
    integer_textual_form "2147483648" = some 2147483648 ∧
    int [.string "2147483648"] = .ok .nil ∧
    (Except.ok Value.nil : M Value) ≠
      .ok (.number (.num ((2147483648 : Int) : Rat))) := by
  refine ⟨by decide, rfl, ?_⟩
  intro h
  exact Value.noConfusion (Except.ok.inj h)

/-- C8 as amended: number parses through f64 — Number on success, Nil on
failure; int parses through i32 — on success the exact f64 widening of
the parsed value, Nil on failure, where failure includes every integer
textual form whose value lies outside the 32-bit signed range; and on
every integer textual form within that range int does return the
widening. -/
theorem c8_number_int_parse (s : String) :
    (∀ x, parse_f64 s = some x → number [.string s] = .ok (.number x)) ∧
    (parse_f64 s = none → number [.string s] = .ok .nil) ∧
    (∀ z, parse_i32 s = some z → int [.string s] = .ok (.number (.num (z : Rat)))) ∧
    (parse_i32 s = none → int [.string s] = .ok .nil) ∧
    (∀ z, integer_textual_form s = some z → -(2 ^ 31) ≤ z → z ≤ 2 ^ 31 - 1 →
       int [.string s] = .ok (.number (.num (z : Rat)))) := by
  refine ⟨?_, ?_, ?_, ?_, ?_⟩
  · intro x hx; simp [number, hx]
  · intro hx; simp [number, hx]
  · intro z hz; simp [int, hz]
  · intro hz; simp [int, hz]
  · intro z hitf hlo hhi
    have hp : parse_i32 s = some z := by
      unfold integer_textual_form at hitf
      unfold parse_i32
      rcases hsp : stripSign s.toList with ⟨neg, digits⟩
      rw [hsp] at hitf
      by_cases hd : digits = []
      · rw [hd] at hitf; simp at hitf
      · by_cases ha : allDigits digits = true
        · norm_num at hlo hhi
          have hz2 : (if neg = true then -(digitsToNat digits : Int) else (digitsToNat digits : Int)) = z := by
            have h0 := hitf
            simp [hd, ha] at h0
            simpa using h0
          simp only [hd, if_false, ha, if_true]
          rw [hz2]
          simp [hlo, hhi]
        · exfalso
          simp [hd, ha] at hitf
    simp [int, hp]

/-- C8 witness: int widens 42 exactly, int rejects a fractional form,
and number returns Nil on a non-numeric string. -/
theorem c8_number_int_parse_witness :
    int [.string "42"] = .ok (.number (.num ((42 : Int) : Rat))) ∧
    int [.string "5.5"] = .ok .nil ∧
    number [.string "abc"] = .ok .nil := by
  refine ⟨(c8_number_int_parse "42").2.2.1 42 (by decide), ?_, ?_⟩
  · exact (c8_number_int_parse "5.5").2.2.2.1 (by decide)
  · exact (c8_number_int_parse "abc").2.1 (by decide)

/-- Peeking at distance zero is reading the last stack element. -/
theorem peekV_zero (st : VMState) (v : Value) (h : st.stack.getLast? = some v) :
    peekV st 0 = some v := by
  have hlen : 1 ≤ st.stack.length := by
    cases hs : st.stack with
    | nil => rw [hs] at h; cases h
    | cons a as => simp [hs]
  unfold peekV
  rw [if_pos (by omega : 0 + 1 ≤ st.stack.length)]
  rw [show st.stack.length - 1 - 0 = st.stack.length - 1 from rfl]
  rw [← List.getLast?_eq_getElem?]
  exact h

/-- C4: upvalue cells realise shared mutable capture. Capturing the same
slot twice yields the same cell reference and leaves the state as it
was, so two closures over one local share one cell; writing through the
shared cell while it is Open updates the aliased stack slot and a read
through the same cell from any frame then sees the written value; and
after the cell is Closed, a write stores into the cell itself and a
read from any frame over any stack still sees the written value. -/
theorem c4_shared_upvalue_read_write :
    (∀ (st : VMState) (slot : Nat),
       capture_upvalue (capture_upvalue st slot).2 slot =
         ((capture_upvalue st slot).1, (capture_upvalue st slot).2)) ∧
    (∀ (st : VMState) (iA iB r s : Nat) (v : Value) (frA frB : CallFrame)
       (fsA fsB : List CallFrame),
       st.frames = fsA ++ [frA] →
       frA.get_upvalue iA = some r →
       st.heap.getUpvalue r = some (.Open s) →
       s < st.stack.length →
       st.stack.getLast? = some v →
       frB.get_upvalue iB = some r →
       set_upvalue st iA = .ok { st with stack := st.stack.set s v } ∧
       get_upvalue { st with stack := st.stack.set s v, frames := fsB ++ [frB] } iB =
         .ok { st with stack := st.stack.set s v ++ [v], frames := fsB ++ [frB] }) ∧
    (∀ (st : VMState) (iA iB r : Nat) (w v : Value) (frA frB : CallFrame)
       (fsA fsB : List CallFrame) (stack2 : List Value),
       st.frames = fsA ++ [frA] →
       frA.get_upvalue iA = some r →
       st.heap.getUpvalue r = some (.Closed w) →
       st.stack.getLast? = some v →
       frB.get_upvalue iB = some r →
       set_upvalue st iA = .ok { st with heap := st.heap.setObj r (.upvalue (.Closed v)) } ∧
       get_upvalue { st with heap := st.heap.setObj r (.upvalue (.Closed v)),
                             frames := fsB ++ [frB], stack := stack2 } iB =
         .ok { st with heap := st.heap.setObj r (.upvalue (.Closed v)),
                       frames := fsB ++ [frB], stack := stack2 ++ [v] }) := by
  refine ⟨?_, ?_, ?_⟩
  · intro st slot
    cases hf : st.open_upvalues.find? (fun r =>
        match st.heap.getUpvalue r with
        | some (.Open i) => i == slot
        | _ => false) with
    | some r =>
        simp only [capture_upvalue, hf]
    | none =>
        simp only [capture_upvalue, hf, Heap.alloc]
        have hfind : (st.open_upvalues ++ [st.heap.next_id]).find? (fun r =>
            match Heap.getUpvalue ⟨insertN st.heap.objects st.heap.next_id
                (.upvalue (.Open slot)), st.heap.next_id + 1⟩ r with
            | some (.Open i) => i == slot
            | _ => false) = some st.heap.next_id := by
          apply find?_extended _ _ _ _ _ _ hf
          · intro r hr
            have : Heap.getUpvalue ⟨insertN st.heap.objects st.heap.next_id
                (.upvalue (.Open slot)), st.heap.next_id + 1⟩ r = st.heap.getUpvalue r := by
              unfold Heap.getUpvalue
              rw [lookupN_insertN_ne _ _ _ _ hr]
            rw [this]
          · unfold Heap.getUpvalue
            rw [lookupN_insertN_self]
            simp
        simp only [capture_upvalue, hfind]
  · intro st iA iB r s v frA frB fsA fsB hfrs hupA hcell hslen htop hupB
    have hfrA : st.frames.getLast? = some frA := by rw [hfrs]; exact getLast?_append_one _ _
    have hpeek := peekV_zero st v htop
    constructor
    · simp only [set_upvalue, hpeek, ofOption, bind_ok, frameLast, hfrA, hupA, hcell, hslen,
        if_true]
    · have hcell2 :
          Heap.getUpvalue ({ st with stack := st.stack.set s v, frames := fsB ++ [frB] } : VMState).heap r =
            some (.Open s) := hcell
      have hget : (st.stack.set s v)[s]? = some v := by
        have := List.getElem?_set_eq_of_lt v hslen (l := st.stack)
        simpa using this
      simp only [get_upvalue, frameLast, getLast?_append_one, ofOption, bind_ok, hupB, hcell2,
        hget]
  · intro st iA iB r w v frA frB fsA fsB stack2 hfrs hupA hcell htop hupB
    have hfrA : st.frames.getLast? = some frA := by rw [hfrs]; exact getLast?_append_one _ _
    have hpeek := peekV_zero st v htop
    constructor
    · simp only [set_upvalue, hpeek, ofOption, bind_ok, frameLast, hfrA, hupA, hcell]
    · have hcell2 :
          Heap.getUpvalue ({ st with heap := st.heap.setObj r (.upvalue (.Closed v)), frames := fsB ++ [frB], stack := stack2 } : VMState).heap r =
            some (.Closed v) := by
        unfold Heap.getUpvalue Heap.setObj
        simp only [lookupN_insertN_self]
      simp only [get_upvalue, frameLast, getLast?_append_one, ofOption, bind_ok, hupB, hcell2]

/-- C4 witness: on a concrete state, capturing slot 0 twice yields the
same fresh cell, a write through the open cell is read back through it
from another frame, and likewise after the cell is closed. -/
theorem c4_shared_upvalue_read_write_witness :
    capture_upvalue (capture_upvalue ⟨[.nil], [], [], [], ⟨[], 0⟩, []⟩ 0).2 0 =
      ((capture_upvalue ⟨[.nil], [], [], [], ⟨[], 0⟩, []⟩ 0).1,
       (capture_upvalue ⟨[.nil], [], [], [], ⟨[], 0⟩, []⟩ 0).2) ∧
    set_upvalue ⟨[.nil, .number (.num 3)], [⟨.mk 0 [] [] .nil, 0, 0, [7]⟩], [], [7],
        ⟨[(7, .upvalue (.Open 0))], 8⟩, []⟩ 0 =
      .ok ⟨[.number (.num 3), .number (.num 3)], [⟨.mk 0 [] [] .nil, 0, 0, [7]⟩], [], [7],
        ⟨[(7, .upvalue (.Open 0))], 8⟩, []⟩ ∧
    set_upvalue ⟨[.number (.num 4)], [⟨.mk 0 [] [] .nil, 0, 0, [7]⟩], [], [],
        ⟨[(7, .upvalue (.Closed .nil))], 8⟩, []⟩ 0 =
      .ok ⟨[.number (.num 4)], [⟨.mk 0 [] [] .nil, 0, 0, [7]⟩], [], [],
        ⟨[(7, .upvalue (.Closed (.number (.num 4))))], 8⟩, []⟩ := by
  refine ⟨c4_shared_upvalue_read_write.1 _ 0, ?_, ?_⟩
  · have h := (c4_shared_upvalue_read_write.2.1
      ⟨[.nil, .number (.num 3)], [⟨.mk 0 [] [] .nil, 0, 0, [7]⟩], [], [7],
        ⟨[(7, .upvalue (.Open 0))], 8⟩, []⟩
      0 0 7 0 (.number (.num 3)) ⟨.mk 0 [] [] .nil, 0, 0, [7]⟩ ⟨.mk 0 [] [] .nil, 0, 0, [7]⟩
      [] [] rfl rfl rfl (by decide) rfl rfl).1
    simpa using h
  · have h := (c4_shared_upvalue_read_write.2.2
      ⟨[.number (.num 4)], [⟨.mk 0 [] [] .nil, 0, 0, [7]⟩], [], [],
        ⟨[(7, .upvalue (.Closed .nil))], 8⟩, []⟩
      0 0 7 .nil (.number (.num 4)) ⟨.mk 0 [] [] .nil, 0, 0, [7]⟩ ⟨.mk 0 [] [] .nil, 0, 0, [7]⟩
      [] [] [] rfl rfl rfl rfl rfl).1
    simpa using h

/-- C3 counterexample: on c3_state — an instance of a class whose method
m is a NativeFunction, as the Map built-in constructs — Invoke runs the
native and succeeds, while GetProperty followed by Call panics inside
bind_method, which accepts only Function or Closure methods. The claim
as stated quantifies over every receiver and name, so it fails here. -/
theorem c3_invoke_native_method_diverges :
    invoke c3_state "m" 0 = .ok { c3_state with stack := [.nil] } ∧
    get_property_then_call c3_state 0 [] 0 = .error "Expected function or closure." :=
  ⟨rfl, rfl⟩

/-- C3 as amended: Invoke(name, n) on an instance receiver is observably
equivalent to GetProperty(name) followed by Call(n) whenever the class
method it would dispatch to — relevant only when no field of that name
shadows it — is a Function or a Closure; in both paths a field with
that name wins over a class method of the same name, the field value
being called from the callee slot. For NativeFunction methods, such as
those of the Map built-in, the two paths diverge (see the
counterexample), which is the only correction to the claim. -/
theorem c3_invoke_refines_get_property_call
    (st : VMState) (pre args : List Value) (iRef k n : Nat)
    (name : String) (inst : Instance)
    (hstack : st.stack = pre ++ .instanceRef iRef :: args)
    (hn : args.length = n)
    (hname : read_constant st k = .ok (.string name))
    (hinst : st.heap.getInstance iRef = some inst)
    (hmeth : ∀ m, lookupA inst.fields name = none →
       (st.heap.getClass inst.cls).bind (fun cl => lookupA cl.methods name) = some m →
       isFnOrClosure m = true) :
    invoke st name n =
      get_property_then_call { st with stack := pre ++ [.instanceRef iRef] } k args n ∧
    (∀ f, lookupA inst.fields name = some f →
       invoke st name n = call_value_from_stack { st with stack := pre ++ f :: args } n) := by
  subst hn
  have hpeek : peekV st args.length = some (.instanceRef iRef) :=
    peekV_middle st pre _ args hstack
  have hidx : st.stack.length - args.length - 1 = pre.length := by
    rw [hstack]; simp only [List.length_append, List.length_cons]; omega
  have hset : ∀ m : Value,
      st.stack.set (st.stack.length - args.length - 1) m = pre ++ m :: args := by
    intro m; rw [hidx, hstack]; exact set_append_middle _ _ _ _
  have hinv : invoke st name args.length =
      (match lookupA inst.fields name with
       | some m => call_value_from_stack { st with stack := pre ++ m :: args } args.length
       | none => invoke_from_class st inst.cls name args.length) := by
    simp only [invoke, hpeek, ofOption, bind_ok, hinst]
    cases hf : lookupA inst.fields name with
    | some m => simp only [hset m]
    | none => rfl
  have hname2 : read_string { st with stack := pre ++ [.instanceRef iRef] } k =
      .ok name := by
    have h0 : read_constant { st with stack := pre ++ [.instanceRef iRef] } k =
        .ok (.string name) := hname
    simp only [read_string, h0, bind_ok]
  have hpop : popV { st with stack := pre ++ [.instanceRef iRef] } =
      .ok (.instanceRef iRef, { st with stack := pre }) := by
    simp [popV, getLast?_append_one, dropLast_append_one]
  have hinst2 : Heap.getInstance ({ st with stack := pre } : VMState).heap iRef =
      some inst := hinst
  have hgp : get_property { st with stack := pre ++ [.instanceRef iRef] } k =
      (match lookupA inst.fields name with
       | some f => .ok { st with stack := pre ++ [f] }
       | none => bind_method { st with stack := pre } inst.cls iRef name) := by
    simp only [get_property, hname2, bind_ok, hpop, hinst2, ofOption]
  cases hf : lookupA inst.fields name with
  | some f =>
      constructor
      · rw [hinv]
        simp only [hf, get_property_then_call, hgp, bind_ok, List.append_assoc,
          List.singleton_append]
      · intro f2 hf2
        cases hf2
        rw [hinv]
        simp only [hf]
  | none =>
      refine ⟨?_, ?_⟩
      case refine_2 =>
        intro f2 hf2
        cases hf2
      rw [hinv]
      simp only [hf, get_property_then_call, hgp, bind_ok]
      cases hcl : st.heap.getClass inst.cls with
      | none =>
          have hcl2 : Heap.getClass ({ st with stack := pre } : VMState).heap inst.cls =
              none := hcl
          simp only [invoke_from_class, bind_method, hcl, hcl2, ofOption, bind_error]
      | some cl =>
          have hcl2 : Heap.getClass ({ st with stack := pre } : VMState).heap inst.cls =
              some cl := hcl
          cases hm : lookupA cl.methods name with
          | none =>
              simp only [invoke_from_class, bind_method, hcl, hcl2, ofOption, bind_ok, hm,
                bind_error]
          | some m =>
              have hfn : isFnOrClosure m = true := hmeth m hf (by simp [hcl, hm])
              cases m <;> simp [isFnOrClosure] at hfn
              case function fm =>
                have hpeek2 : peekV { st with
                    stack := pre ++ .boundMethod iRef fm [] :: args } args.length =
                    some (.boundMethod iRef fm []) := peekV_middle _ pre _ args rfl
                have hlen2 : args.length + 1 ≤ (pre ++ .boundMethod iRef fm [] :: args).length := by
                  simp
                have hidx2 :
                    (pre ++ .boundMethod iRef fm [] :: args).length - args.length - 1 =
                      pre.length := by simp; omega
                simp only [invoke_from_class, hcl, hcl2, ofOption, bind_ok, hm, bind_method,
                  call_value_from_stack, List.append_assoc, List.singleton_append, hpeek2,
                  call_value, hlen2, if_true, hidx2, set_append_middle, ← hstack]
              case closure fm ups =>
                have hpeek2 : peekV { st with
                    stack := pre ++ .boundMethod iRef fm ups :: args } args.length =
                    some (.boundMethod iRef fm ups) := peekV_middle _ pre _ args rfl
                have hlen2 :
                    args.length + 1 ≤ (pre ++ .boundMethod iRef fm ups :: args).length := by
                  simp
                have hidx2 :
                    (pre ++ .boundMethod iRef fm ups :: args).length - args.length - 1 =
                      pre.length := by simp; omega
                simp only [invoke_from_class, hcl, hcl2, ofOption, bind_ok, hm, bind_method,
                  call_value_from_stack, List.append_assoc, List.singleton_append, hpeek2,
                  call_value, hlen2, if_true, hidx2, set_append_middle, ← hstack]

/-- C3 witness: on a concrete instance whose class holds a Function
method, Invoke and GetProperty-then-Call produce the same outcome. -/
theorem c3_invoke_refines_get_property_call_witness :
    invoke ⟨[.instanceRef 1], [⟨.mk 0 [] [] (.cons (.string "m") .nil), 0, 0, []⟩], [], [],
        ⟨[(0, .cls ⟨"K", [("m", .function (.mk 0 [] [.Nil, .Return] .nil))]⟩),
          (1, .inst ⟨0, []⟩)], 2⟩, []⟩ "m" 0 =
      get_property_then_call
        ⟨[.instanceRef 1], [⟨.mk 0 [] [] (.cons (.string "m") .nil), 0, 0, []⟩], [], [],
          ⟨[(0, .cls ⟨"K", [("m", .function (.mk 0 [] [.Nil, .Return] .nil))]⟩),
            (1, .inst ⟨0, []⟩)], 2⟩, []⟩ 0 [] 0 := by
  have h := (c3_invoke_refines_get_property_call
    ⟨[.instanceRef 1], [⟨.mk 0 [] [] (.cons (.string "m") .nil), 0, 0, []⟩], [], [],
      ⟨[(0, .cls ⟨"K", [("m", .function (.mk 0 [] [.Nil, .Return] .nil))]⟩),
        (1, .inst ⟨0, []⟩)], 2⟩, []⟩
    [] [] 1 0 0 "m" ⟨0, []⟩ rfl rfl rfl rfl
    (by
      intro m h1 h2
      have h3 : some (Value.function (.mk 0 [] [.Nil, .Return] .nil)) = some m := h2
      cases h3
      rfl)).1
  exact h

end Horst
